import Mathlib

/-!
Verification of the storage and workflow engine of the `velocity` content
service against its natural-language specification.

The Go code under `internal/storage` (the `S3Storage` implementation) is
shallowly embedded here.  The S3 backend is modelled as a pure value
(`Backend`): an association list from keys to version stacks (newest first),
plus a set of "faulted" keys on which key-addressed backend calls fail with a
non-not-found error (modelling network/auth/server failures).  Listing calls
are modelled as infallible.  The `go`-launched version pruning of
`PutStream` is modelled by running the prune synchronously and recording the
invocation in a `pruneLog` field, which makes "pruning was invoked on this
key" observable.  Time stamps and entity tags are not modelled; JSON
marshalling of comments is modelled by a dedicated `Blob` constructor, so
that a comment blob round-trips and any other blob at a comment key plays
the role of a corrupt record.
-/

/-- Models Go `path.Join` for the segment shapes the key builders use:
segments never contain `/` or `.` path steps, so `path.Clean` is the
identity and joining is intercalation of the non-empty segments. -/
def pathJoin (elems : List String) : String :=
  String.intercalate "/" (elems.filter (fun e => e ≠ ""))

/-- Models Go `strings.Contains`: `needle` occurs as a substring of `hay`. -/
def strContains (hay needle : String) : Bool :=
  (hay.toList.tails).any (fun t => needle.toList.isPrefixOf t)

/-- Reduction-friendly `String.startsWith` (Go `strings.HasPrefix`). -/
def strStartsWith (s pre : String) : Bool :=
  pre.toList.isPrefixOf s.toList

/-- Reduction-friendly `String.endsWith` (Go `strings.HasSuffix`). -/
def strEndsWith (s suf : String) : Bool :=
  suf.toList.isSuffixOf s.toList

/-- Lexicographic order on character lists (byte order on ASCII keys),
the order in which an S3-compatible backend lists keys. -/
def charListLe : List Char → List Char → Bool
  | [], _ => true
  | _ :: _, [] => false
  | a :: as, b :: bs => if a = b then charListLe as bs else decide (a < b)

/-- Key order used by backend listings. -/
def keyLe (a b : String) : Bool :=
  charListLe a.toList b.toList

/-- Insert a key into a `keyLe`-sorted list of keys. -/
def insertKeySorted (k : String) : List String → List String
  | [] => [k]
  | x :: xs => if keyLe k x then k :: x :: xs else x :: insertKeySorted k xs

/-- Sort keys as an S3-compatible backend lists them (lexicographically). -/
def sortKeys (l : List String) : List String :=
  l.foldr insertKeySorted []

/-- Helper for `lastIndexOf`: walk the list keeping the last hit. -/
def lastIndexAux (c : Char) : List Char → Nat → Option Nat → Option Nat
  | [], _, acc => acc
  | x :: xs, i, acc => lastIndexAux c xs (i + 1) (if x = c then some i else acc)

/-- Models Go `strings.LastIndex` for a single character. -/
def lastIndexOf (cs : List Char) (c : Char) : Option Nat :=
  lastIndexAux c cs 0 none

/-- Models the id-splitting step of `FindContentStream`:
`if idx := strings.LastIndex(id, "."); idx != -1 && idx < len(id)-1`
splits `id` into `(baseID, ext)` around the last dot. -/
def hasExtSplit (idStr : String) : Option (String × String) :=
  let cs := idStr.toList
  match lastIndexOf cs '.' with
  | none => none
  | some idx =>
      if idx < cs.length - 1 then
        some (String.mk (cs.take idx), String.mk (cs.drop (idx + 1)))
      else
        none

/-- `Except` success test (Go: `err == nil`). -/
def exceptIsOk : Except ε α → Bool
  | .ok _ => true
  | .error _ => false

instance instDecEqExcept [DecidableEq ε] [DecidableEq α] : DecidableEq (Except ε α)
  | .error a, .error b =>
      if h : a = b then .isTrue (congrArg Except.error h)
      else .isFalse (fun hc => h (Except.error.inj hc))
  | .error _, .ok _ => .isFalse (fun hc => Except.noConfusion hc)
  | .ok _, .error _ => .isFalse (fun hc => Except.noConfusion hc)
  | .ok a, .ok b =>
      if h : a = b then .isTrue (congrArg Except.ok h)
      else .isFalse (fun hc => h (Except.ok.inj hc))

/-- `storage.Comment` (timestamps omitted: time is not modelled). -/
structure Comment where
  id : String
  author : String
  message : String
  resolved : Bool
  resolvedBy : String
deriving DecidableEq, Repr

/-- A stored backend object body.  Real backends store bytes; structured
constructors model JSON-marshalled records so that unmarshalling is
pattern matching and any other blob at such a key is a corrupt record. -/
inductive Blob where
  | bytes (data : List Nat)
  | comment (c : Comment)
deriving DecidableEq, Repr

/-- `storage.ContentItem` (LastModified and ETag omitted: not modelled). -/
structure ContentItem where
  key : String
  content : Blob
  contentType : String
  versionID : String
  size : Nat
  metadata : List (String × String)
deriving DecidableEq, Repr

/-- `storage.ContentStream`: same identity and attributes as `ContentItem`;
the buffered/lazy distinction is not observable in the model. -/
abbrev ContentStream := ContentItem

/-- Error kinds.  Each constructor corresponds to one distinct error
construction site in the Go code (Go wraps messages with `fmt.Errorf`;
the constructor records the site and any wrapped inner error). -/
inductive SErr where
  /-- Backend `NoSuchKey` / 404 answer. -/
  | notFoundKey
  /-- Backend network/auth/server failure. -/
  | fault (msg : String)
  /-- `Transition`: "source and target states are the same". -/
  | invalidTransition
  /-- `Transition`: "cannot transition: unresolved comments on %s content". -/
  | gated (st : String)
  /-- `Transition`: "failed to check comments: %w". -/
  | checkCommentsFailed (inner : SErr)
  /-- `Transition`: "failed to get content from %s state: %w". -/
  | getFromStateFailed (st : String) (inner : SErr)
  /-- `Transition`: "failed to put content to %s state: %w". -/
  | putToStateFailed (st : String) (inner : SErr)
  /-- `FindContentStream`: "content '%s' not found". -/
  | contentNotFound (idStr : String)
  /-- `GetSchema`: "schema not found: %s". -/
  | schemaNotFound (name : String)
  /-- `PutComment`: "comments are only allowed on draft or pending content". -/
  | invalidState
deriving DecidableEq, Repr

/-- One stored version of a backend object (newest versions sit at the
head of a key's version stack). -/
structure ObjVersion where
  versionId : String
  isDeleteMarker : Bool
  content : Blob
  contentType : String
  size : Nat
  metadata : List (String × String)
deriving DecidableEq, Repr

/-- The S3-compatible backend, as a pure value.  `faults` is the set of
keys on which key-addressed calls (put/get/head/delete) fail with a
non-not-found backend error.  `pruneLog` records every launch of the
detached `pruneVersions` task, newest first. -/
structure Backend where
  objects : List (String × List ObjVersion)
  faults : List String
  versioning : Bool
  nextVer : Nat
  pruneLog : List String
deriving DecidableEq, Repr

/-- First-match lookup in the key/version-stack association list. -/
def lookupVersions : List (String × List ObjVersion) → String → List ObjVersion
  | [], _ => []
  | (k, vs) :: rest, key => if k = key then vs else lookupVersions rest key

/-- The version stack of a key (empty when the key does not exist). -/
def Backend.versionsOf (b : Backend) (key : String) : List ObjVersion :=
  lookupVersions b.objects key

/-- Replace (or create) the version stack of a key. -/
def setVersions : List (String × List ObjVersion) → String → List ObjVersion →
    List (String × List ObjVersion)
  | [], key, vs => [(key, vs)]
  | (k, old) :: rest, key, vs =>
      if k = key then (k, vs) :: rest else (k, old) :: setVersions rest key vs

/-- A key is visible to listings and plain gets iff it has at least one
version and the newest one is not a delete marker. -/
def Backend.visibleKey (b : Backend) (key : String) : Bool :=
  match b.versionsOf key with
  | [] => false
  | v :: _ => !v.isDeleteMarker

/-- Backend `PutObject`.  With versioning, every put pushes a fresh
version (distinct version id) on top; without, it overwrites in place and
reports no version id (Go reads a nil `VersionId` as the empty string). -/
def Backend.putObject (b : Backend) (key : String) (content : Blob)
    (ct : String) (size : Nat) (md : List (String × String)) :
    Except SErr (Backend × Option String) :=
  if key ∈ b.faults then .error (.fault "put") else
  if b.versioning then
    let vid := "v" ++ toString b.nextVer
    .ok ({ b with
            objects := setVersions b.objects key
              (⟨vid, false, content, ct, size, md⟩ :: b.versionsOf key),
            nextVer := b.nextVer + 1 }, some vid)
  else
    .ok ({ b with
            objects := setVersions b.objects key [⟨"", false, content, ct, size, md⟩] },
         none)

/-- Backend `GetObject`, optionally pinned to a version id. -/
def Backend.getObject (b : Backend) (key : String) (versionID : Option String) :
    Except SErr ContentItem :=
  if key ∈ b.faults then .error (.fault "get") else
  match versionID with
  | none =>
      match b.versionsOf key with
      | [] => .error .notFoundKey
      | v :: _ =>
          if v.isDeleteMarker then .error .notFoundKey
          else .ok ⟨key, v.content, v.contentType, v.versionId, v.size, v.metadata⟩
  | some vid =>
      match (b.versionsOf key).find? (fun v => v.versionId = vid) with
      | none => .error .notFoundKey
      | some v =>
          if v.isDeleteMarker then .error .notFoundKey
          else .ok ⟨key, v.content, v.contentType, v.versionId, v.size, v.metadata⟩

/-- Backend `HeadObject`: same header answer as a get, no body. -/
def Backend.headObject (b : Backend) (key : String) : Except SErr Unit :=
  (b.getObject key none).map (fun _ => ())

/-- Backend `DeleteObject` without a version id: with versioning this
pushes a delete marker (historical versions stay); without it removes the
key. -/
def Backend.deleteObject (b : Backend) (key : String) : Except SErr Backend :=
  if key ∈ b.faults then .error (.fault "delete") else
  if b.versioning then
    let vid := "v" ++ toString b.nextVer
    .ok { b with
          objects := setVersions b.objects key
            (⟨vid, true, Blob.bytes [], "", 0, []⟩ :: b.versionsOf key),
          nextVer := b.nextVer + 1 }
  else
    .ok { b with objects := setVersions b.objects key [] }

/-- Backend `DeleteObject` pinned to a version id, as pruning uses it;
the pruning loop only logs failures, so the faulted case is a no-op. -/
def Backend.deleteObjectVersion (b : Backend) (key vid : String) : Backend :=
  if key ∈ b.faults then b else
  { b with
    objects := setVersions b.objects key
      ((b.versionsOf key).filter (fun v => v.versionId ≠ vid)) }

/-- Backend `ListObjectsV2` (the paginator enumerates everything when no
cap is given): the visible keys under a prefix, in lexicographic order. -/
def Backend.listObjectsV2 (b : Backend) (pfx : String) (maxKeys : Option Nat) :
    List String :=
  let keys := sortKeys ((b.objects.map (fun kv => kv.1)).filter
    (fun k => strStartsWith k pfx && b.visibleKey k))
  match maxKeys with
  | some n => keys.take n
  | none => keys

/-- Backend `ListObjectVersions`: the `Versions` field of the answer, i.e.
the non-marker versions of every key under the prefix, newest first within
each key. -/
def Backend.listObjectVersions (b : Backend) (pfx : String) :
    List (String × ObjVersion) :=
  (sortKeys ((b.objects.map (fun kv => kv.1)).filter (fun k => strStartsWith k pfx))).flatMap
    (fun k => ((b.versionsOf k).filter (fun v => !v.isDeleteMarker)).map (fun v => (k, v)))

/-- `S3Config.Root` and `MaxVersions` after `NewS3Storage` normalisation,
together with the fields of `S3Storage` the core operations read (the
bucket name and client are part of the `Backend` environment). -/
structure S3Storage where
  root : String
  maxVersions : Int
deriving DecidableEq, Repr

/-- Drop leading and trailing `/` (Go `strings.Trim(cfg.Root, "/")`). -/
def trimSlashes (s : String) : String :=
  String.mk (((s.toList.dropWhile (fun c => c = '/')).reverse.dropWhile
    (fun c => c = '/')).reverse)

/-- `NewS3Storage`: cleans the root and defaults `MaxVersions` to 10 when
the configured value is exactly zero. -/
def NewS3Storage (root : String) (maxVersions : Int) : S3Storage :=
  { root := trimSlashes root,
    maxVersions := if maxVersions = 0 then 10 else maxVersions }

/-- Workflow states, as the Go string constants. -/
def StateDraft : String := "draft"

/-- Workflow states, as the Go string constants. -/
def StatePending : String := "pending"

/-- Workflow states, as the Go string constants. -/
def StateLive : String := "live"

/-- `storage.ValidState`. -/
def ValidState (s : String) : Bool :=
  s = StateDraft || s = StatePending || s = StateLive

/-- The `if state == "" { state = StateLive }` defaulting idiom repeated
at the top of the content operations. -/
def defaultState (state : String) : String :=
  if state = "" then StateLive else state

/-- `S3Storage.contentKey`. -/
def S3Storage.contentKey (s : S3Storage) (tenant contentType idStr ext state : String) :
    String :=
  if state = StateLive ∨ state = "" then
    pathJoin [s.root, "tenants", tenant, "content", contentType, idStr ++ "." ++ ext]
  else
    pathJoin [s.root, "tenants", tenant, "content", contentType, "_" ++ state,
      idStr ++ "." ++ ext]

/-- `S3Storage.contentPrefix` (named `contentPrefixOf` here). -/
def S3Storage.contentPrefixOf (s : S3Storage) (tenant contentType state : String) :
    String :=
  if state = StateLive ∨ state = "" then
    pathJoin [s.root, "tenants", tenant, "content", contentType] ++ "/"
  else
    pathJoin [s.root, "tenants", tenant, "content", contentType, "_" ++ state] ++ "/"

/-- `S3Storage.commentKey`. -/
def S3Storage.commentKey (s : S3Storage) (tenant contentType contentID state idStr : String) :
    String :=
  pathJoin [s.root, "tenants", tenant, "content", contentType, "_" ++ state,
    "_comments", contentID, idStr ++ ".json"]

/-- `S3Storage.commentPrefix` (named `commentPrefixOf` here). -/
def S3Storage.commentPrefixOf (s : S3Storage) (tenant contentType contentID state : String) :
    String :=
  pathJoin [s.root, "tenants", tenant, "content", contentType, "_" ++ state,
    "_comments", contentID] ++ "/"

/-- `S3Storage.globalSchemaKey`. -/
def S3Storage.globalSchemaKey (s : S3Storage) (schemaName : String) : String :=
  pathJoin [s.root, "schemas", schemaName ++ ".json"]

/-- `S3Storage.tenantSchemaKey`. -/
def S3Storage.tenantSchemaKey (s : S3Storage) (tenant schemaName : String) : String :=
  pathJoin [s.root, "tenants", tenant, "schemas", schemaName ++ ".json"]

/-- Size in bytes a buffered put sends (length of the byte payload). -/
def blobSize : Blob → Nat
  | .bytes data => data.length
  | .comment _ => 0

/-- `S3Storage.getByKey`: buffered get of a full key. -/
def S3Storage.getByKey (_s : S3Storage) (b : Backend) (key : String)
    (versionID : String) : Except SErr ContentItem :=
  b.getObject key (if versionID = "" then none else some versionID)

/-- `S3Storage.getStreamByKey`: the stream variant; identical answer in
the model (the buffered/lazy distinction is not observable). -/
def S3Storage.getStreamByKey (s : S3Storage) (b : Backend) (key : String)
    (versionID : String) : Except SErr ContentStream :=
  s.getByKey b key versionID

/-- `S3Storage.Put`: buffered write.  Returns the item with the
backend-assigned version id; note the source launches no pruning here. -/
def S3Storage.Put (s : S3Storage) (b : Backend) (tenant contentType idStr ext : String)
    (content : Blob) (mimeType state : String) :
    Except SErr (Backend × ContentItem) :=
  let st := defaultState state
  let key := s.contentKey tenant contentType idStr ext st
  match b.putObject key content mimeType (blobSize content) [] with
  | .error e => .error e
  | .ok (b', vidOpt) =>
      .ok (b', { key := key, content := content, contentType := mimeType,
                 versionID := vidOpt.getD "", size := 0, metadata := [] })

/-- `S3Storage.pruneVersions`: lists the versions under the key, filters
to the exact key, and deletes every version beyond the newest
`maxVersions` (failures of individual deletes are logged and ignored). -/
def S3Storage.pruneVersions (s : S3Storage) (b : Backend) (key : String) : Backend :=
  let versions := b.listObjectVersions key
  let objectVersions := versions.filter (fun p => p.1 = key)
  if (objectVersions.length : Int) > s.maxVersions then
    (objectVersions.drop s.maxVersions.toNat).foldl
      (fun bb p => bb.deleteObjectVersion key p.2.versionId) b
  else b

/-- `S3Storage.PutStream`: streaming write.  After a live-state write with
a positive `maxVersions` it launches `pruneVersions` on the just-written
key in a detached task; the model records the launch in `pruneLog` and
runs the prune synchronously. -/
def S3Storage.PutStream (s : S3Storage) (b : Backend) (tenant contentType idStr ext : String)
    (content : Blob) (contentLength : Nat) (mimeType state : String)
    (metadata : List (String × String)) :
    Except SErr (Backend × ContentItem) :=
  let st := defaultState state
  let key := s.contentKey tenant contentType idStr ext st
  match b.putObject key content mimeType contentLength metadata with
  | .error e => .error e
  | .ok (b', vidOpt) =>
      let b'' :=
        if st = StateLive ∧ s.maxVersions > 0 then
          s.pruneVersions { b' with pruneLog := key :: b'.pruneLog } key
        else b'
      .ok (b'', { key := key, content := content, contentType := mimeType,
                  versionID := vidOpt.getD "", size := contentLength,
                  metadata := metadata })

/-- `S3Storage.Get`. -/
def S3Storage.Get (s : S3Storage) (b : Backend) (tenant contentType idStr ext state : String) :
    Except SErr ContentItem :=
  let st := defaultState state
  s.getByKey b (s.contentKey tenant contentType idStr ext st) ""

/-- `S3Storage.GetStream`. -/
def S3Storage.GetStream (s : S3Storage) (b : Backend)
    (tenant contentType idStr ext state : String) : Except SErr ContentStream :=
  let st := defaultState state
  s.getStreamByKey b (s.contentKey tenant contentType idStr ext st) ""

/-- The best-key selection loop of `FindContentStream`:
`bestKey` starts empty, takes the first key, and the loop breaks at the
first key that does not end in `.json`. -/
def chooseBestKey : List String → String → String
  | [], best => best
  | k :: rest, best =>
      let best' := if best = "" then k else best
      if !(strEndsWith k ".json") then k else chooseBestKey rest best'

/-- `S3Storage.FindContentStream`: extension resolution.  An id carrying
its own extension is fetched directly; otherwise a non-empty hint is
tried and, on any failure, the backend is listed under
`<contentPrefix><id>.` capped at 10 keys, preferring the first non-`.json`
key and falling back to the first key; an empty listing is NotFound. -/
def S3Storage.FindContentStream (s : S3Storage) (b : Backend)
    (tenant contentType idStr extHint state : String) : Except SErr ContentStream :=
  let st := defaultState state
  match hasExtSplit idStr with
  | some (baseID, ext) =>
      s.getStreamByKey b (s.contentKey tenant contentType baseID ext st) ""
  | none =>
      let listStep : Except SErr ContentStream :=
        let pfx := s.contentPrefixOf tenant contentType st ++ idStr ++ "."
        match b.listObjectsV2 pfx (some 10) with
        | [] => .error (.contentNotFound idStr)
        | k :: rest => s.getStreamByKey b (chooseBestKey (k :: rest) "") ""
      if extHint ≠ "" then
        match s.getStreamByKey b (s.contentKey tenant contentType idStr extHint st) "" with
        | .ok stream => .ok stream
        | .error _ => listStep
      else listStep

/-- `S3Storage.Delete`. -/
def S3Storage.Delete (s : S3Storage) (b : Backend)
    (tenant contentType idStr ext state : String) : Except SErr Backend :=
  let st := defaultState state
  b.deleteObject (s.contentKey tenant contentType idStr ext st)

/-- `S3Storage.Exists`: HEAD on the key; any head error is answered as
`(false, nil)`. -/
def S3Storage.Exists (s : S3Storage) (b : Backend)
    (tenant contentType idStr ext state : String) : Except SErr Bool :=
  let st := defaultState state
  match b.headObject (s.contentKey tenant contentType idStr ext st) with
  | .error _ => .ok false
  | .ok _ => .ok true

/-- `S3Storage.PutComment`: rejected on the live state, otherwise writes
the marshalled comment blob at the comment key. -/
def S3Storage.PutComment (s : S3Storage) (b : Backend)
    (tenant contentType contentID state : String) (comment : Comment) :
    Except SErr Backend :=
  if state = StateLive then .error .invalidState else
  match b.putObject (s.commentKey tenant contentType contentID state comment.id)
      (Blob.comment comment) "application/json" 0 [] with
  | .error e => .error e
  | .ok (b', _) => .ok b'

/-- `S3Storage.ListComments`: lists the comment prefix and fetches every
key, skipping (Go `continue`) keys that fail to fetch or to unmarshal. -/
def S3Storage.ListComments (s : S3Storage) (b : Backend)
    (tenant contentType contentID state : String) : Except SErr (List Comment) :=
  let pfx := s.commentPrefixOf tenant contentType contentID state
  .ok ((b.listObjectsV2 pfx none).filterMap (fun key =>
    match b.getObject key none with
    | .error _ => none
    | .ok item =>
        match item.content with
        | .comment c => some c
        | _ => none))

/-- `S3Storage.DeleteComment`. -/
def S3Storage.DeleteComment (s : S3Storage) (b : Backend)
    (tenant contentType contentID state idStr : String) : Except SErr Backend :=
  b.deleteObject (s.commentKey tenant contentType contentID state idStr)

/-- `S3Storage.DeleteAllComments`: lists, then deletes one by one,
logging and ignoring individual delete failures. -/
def S3Storage.DeleteAllComments (s : S3Storage) (b : Backend)
    (tenant contentType contentID state : String) : Except SErr Backend :=
  match s.ListComments b tenant contentType contentID state with
  | .error e => .error e
  | .ok comments =>
      .ok (comments.foldl (fun bb c =>
        match s.DeleteComment bb tenant contentType contentID state c.id with
        | .ok bb' => bb'
        | .error _ => bb) b)

/-- `S3Storage.HasUnresolvedComments`: true iff some listed comment has
`Resolved == false`. -/
def S3Storage.HasUnresolvedComments (s : S3Storage) (b : Backend)
    (tenant contentType contentID state : String) : Except SErr Bool :=
  match s.ListComments b tenant contentType contentID state with
  | .error e => .error e
  | .ok comments => .ok (comments.any (fun c => !c.resolved))

/-- `S3Storage.Transition`: rejects identical states, gates on unresolved
comments for a non-live source, copies source to target, then
best-effort deletes the source object and the source-state comments. -/
def S3Storage.Transition (s : S3Storage) (b : Backend)
    (tenant contentType idStr ext fromState toState : String) :
    Except SErr (Backend × ContentItem) :=
  if fromState = toState then .error .invalidTransition else
  match (if fromState ≠ StateLive then
           s.HasUnresolvedComments b tenant contentType idStr fromState
         else .ok false) with
  | .error e => .error (.checkCommentsFailed e)
  | .ok true => .error (.gated fromState)
  | .ok false =>
      match s.Get b tenant contentType idStr ext fromState with
      | .error e => .error (.getFromStateFailed fromState e)
      | .ok sourceItem =>
          match s.Put b tenant contentType idStr ext sourceItem.content
              sourceItem.contentType toState with
          | .error e => .error (.putToStateFailed toState e)
          | .ok (b1, targetItem) =>
              let b2 :=
                match s.Delete b1 tenant contentType idStr ext fromState with
                | .ok b' => b'
                | .error _ => b1
              let b3 :=
                if fromState ≠ StateLive then
                  match s.DeleteAllComments b2 tenant contentType idStr fromState with
                  | .ok b' => b'
                  | .error _ => b2
                else b2
              .ok (b3, targetItem)

/-- `storage.Schema`. -/
structure Schema where
  name : String
  content : Blob
  isGlobal : Bool
deriving DecidableEq, Repr

/-- `S3Storage.GetSchema`: tries the tenant-specific key; on any failure
falls back to the global key; failing both yields the uniform
"schema not found" error. -/
def S3Storage.GetSchema (s : S3Storage) (b : Backend) (tenant schemaName : String) :
    Except SErr Schema :=
  match s.getByKey b (s.tenantSchemaKey tenant schemaName) "" with
  | .ok item => .ok { name := schemaName, content := item.content, isGlobal := false }
  | .error _ =>
      match s.getByKey b (s.globalSchemaKey schemaName) "" with
      | .ok item => .ok { name := schemaName, content := item.content, isGlobal := true }
      | .error _ => .error (.schemaNotFound schemaName)

/-- `S3Storage.PutGlobalSchema`. -/
def S3Storage.PutGlobalSchema (s : S3Storage) (b : Backend) (schemaName : String)
    (content : Blob) : Except SErr Backend :=
  match b.putObject (s.globalSchemaKey schemaName) content "application/json"
      (blobSize content) [] with
  | .error e => .error e
  | .ok (b', _) => .ok b'

/-- `S3Storage.PutTenantSchema`. -/
def S3Storage.PutTenantSchema (s : S3Storage) (b : Backend) (tenant schemaName : String)
    (content : Blob) : Except SErr Backend :=
  match b.putObject (s.tenantSchemaKey tenant schemaName) content "application/json"
      (blobSize content) [] with
  | .error e => .error e
  | .ok (b', _) => .ok b'

/-- `S3Storage.List`: enumerates the state prefix; when listing live it
skips keys containing `/_draft/` or `/_pending/`.  (Declared after the
other operations so that `List` keeps its usual meaning in their
signatures.) -/
def S3Storage.List (s : S3Storage) (b : Backend) (tenant contentType state : String) :
    Except SErr (List ContentItem) :=
  let st := defaultState state
  let pfx := s.contentPrefixOf tenant contentType st
  .ok ((b.listObjectsV2 pfx none).filterMap (fun key =>
    if st = StateLive ∧ (strContains key "/_draft/" ∨ strContains key "/_pending/") then
      none
    else
      some { key := key, content := Blob.bytes [], contentType := "",
             versionID := "",
             size := (match b.versionsOf key with | v :: _ => v.size | [] => 0),
             metadata := [] }))

/-!  Specification-side definitions used to state the claims. -/

/-- Some comment blob with `resolved = false` is stored (and visible)
under the comment prefix `pfx`. -/
def unresolvedCommentStored (b : Backend) (pfx : String) : Prop :=
  ∃ key item c, b.getObject key none = Except.ok item ∧
    strStartsWith key pfx = true ∧ item.content = Blob.comment c ∧ c.resolved = false

/-- Number of retained versions (delete markers included) of a key. -/
def countVersionsAt (b : Backend) (key : String) : Nat :=
  (b.versionsOf key).length

/-- A sequence of `n` identical live-state `PutStream` writes, each one
followed by whatever pruning it launched (the model runs the launched
prune synchronously inside `PutStream`). -/
def liveWrites (s : S3Storage) (b : Backend) (tenant contentType idStr ext : String)
    (content : Blob) (len : Nat) (mime : String) : Nat → Backend
  | 0 => b
  | n + 1 =>
      let bp := liveWrites s b tenant contentType idStr ext content len mime n
      match s.PutStream bp tenant contentType idStr ext content len mime StateLive [] with
      | .ok (b', _) => b'
      | .error _ => bp

/-!  Concrete storages and backends for witnesses and counterexamples. -/

/-- Demo storage: root `development`, configured `MaxVersions = 3`. -/
def cfgDemo : S3Storage := NewS3Storage "development" 3

/-- Demo storage with the configured `MaxVersions = 0` (defaulted to 10
by `NewS3Storage`). -/
def cfgZero : S3Storage := NewS3Storage "development" 0

/-- Empty versioning backend. -/
def bEmpty : Backend :=
  { objects := [], faults := [], versioning := true, nextVer := 0, pruneLog := [] }

/-- The live key of the demo item `(t, posts, a, html)` under `cfgDemo`. -/
def liveKeyDemo : String := cfgDemo.contentKey "t" "posts" "a" "html" StateLive

/-- Backend holding one live version of the demo item. -/
def bLive : Backend :=
  { objects := [(liveKeyDemo, [⟨"v0", false, Blob.bytes [1, 2], "text/html", 2, []⟩])],
    faults := [], versioning := true, nextVer := 1, pruneLog := [] }

/-- An unresolved demo comment. -/
def unresolvedComment : Comment :=
  { id := "c1", author := "rev", message := "fix this", resolved := false,
    resolvedBy := "" }

/-- Backend holding a draft version of the demo item plus one unresolved
comment in the draft state. -/
def bGated : Backend :=
  { objects :=
      [(cfgDemo.contentKey "t" "posts" "a" "html" StateDraft,
         [⟨"v0", false, Blob.bytes [1, 2], "text/html", 2, []⟩]),
       (cfgDemo.commentKey "t" "posts" "a" StateDraft "c1",
         [⟨"v1", false, Blob.comment unresolvedComment, "application/json", 0, []⟩])],
    faults := [], versioning := true, nextVer := 2, pruneLog := [] }

/-- Backend holding both `logo.png` and `logo.json` as live images. -/
def bLogo : Backend :=
  { objects :=
      [(cfgDemo.contentKey "t" "images" "logo" "json" StateLive,
         [⟨"v0", false, Blob.bytes [3], "application/json", 1, []⟩]),
       (cfgDemo.contentKey "t" "images" "logo" "png" StateLive,
         [⟨"v1", false, Blob.bytes [9, 9], "image/png", 2, []⟩])],
    faults := [], versioning := true, nextVer := 2, pruneLog := [] }

/-- Backend holding one live item and one history record of the same item
inside the same type directory. -/
def bHist : Backend :=
  { objects :=
      [(liveKeyDemo, [⟨"v0", false, Blob.bytes [1, 2], "text/html", 2, []⟩]),
       (pathJoin ["development", "tenants", "t", "content", "posts", "_history", "a",
          "v0.json"],
         [⟨"v1", false, Blob.bytes [7], "application/json", 1, []⟩])],
    faults := [], versioning := true, nextVer := 2, pruneLog := [] }

/-- Backend where the demo live key exists but the backend answers HEAD
and GET on it with a network fault. -/
def bFaultHead : Backend :=
  { objects := [(liveKeyDemo, [⟨"v0", false, Blob.bytes [1, 2], "text/html", 2, []⟩])],
    faults := [liveKeyDemo], versioning := true, nextVer := 1, pruneLog := [] }

/-- Backend where the tenant schema key of `article` is faulted and the
global schema of `article` is present. -/
def bSchemaFault : Backend :=
  { objects :=
      [(cfgDemo.globalSchemaKey "article",
         [⟨"v0", false, Blob.bytes [4, 2], "application/json", 2, []⟩])],
    faults := [cfgDemo.tenantSchemaKey "t" "article"], versioning := true,
    nextVer := 1, pruneLog := [] }

/-- Expected backend after `Put bEmpty (t, posts, hello, json)` of two
bytes of JSON at the default (live) state. -/
def bRound : Backend :=
  { objects :=
      [(cfgDemo.contentKey "t" "posts" "hello" "json" StateLive,
         [⟨"v0", false, Blob.bytes [1, 2], "application/json", 2, []⟩])],
    faults := [], versioning := true, nextVer := 1, pruneLog := [] }

/-- Expected `ContentItem` answered by that `Put`. -/
def itemRound : ContentItem :=
  { key := cfgDemo.contentKey "t" "posts" "hello" "json" StateLive,
    content := Blob.bytes [1, 2], contentType := "application/json",
    versionID := "v0", size := 0, metadata := [] }

/-- Expected backend after a buffered live `Put` of one byte on `bLive`
(no prune launch). -/
def bPutNoPrune : Backend :=
  { objects :=
      [(liveKeyDemo,
         [⟨"v1", false, Blob.bytes [1], "text/html", 1, []⟩,
          ⟨"v0", false, Blob.bytes [1, 2], "text/html", 2, []⟩])],
    faults := [], versioning := true, nextVer := 2, pruneLog := [] }

/-- Expected item answered by that buffered `Put`. -/
def itemPutDemo : ContentItem :=
  { key := liveKeyDemo, content := Blob.bytes [1], contentType := "text/html",
    versionID := "v1", size := 0, metadata := [] }

/-- Expected backend after the same write via `PutStream` (one prune
launch logged; two versions stay under the cap of 3). -/
def bStreamPruned : Backend :=
  { objects :=
      [(liveKeyDemo,
         [⟨"v1", false, Blob.bytes [1], "text/html", 1, []⟩,
          ⟨"v0", false, Blob.bytes [1, 2], "text/html", 2, []⟩])],
    faults := [], versioning := true, nextVer := 2, pruneLog := [liveKeyDemo] }

/-- Expected item answered by that `PutStream`. -/
def itemStreamDemo : ContentItem :=
  { key := liveKeyDemo, content := Blob.bytes [1], contentType := "text/html",
    versionID := "v1", size := 1, metadata := [] }

/-- Expected backend after `PutGlobalSchema bEmpty "article" [5]`. -/
def bSchemaG : Backend :=
  { objects :=
      [(cfgDemo.globalSchemaKey "article",
         [⟨"v0", false, Blob.bytes [5], "application/json", 1, []⟩])],
    faults := [], versioning := true, nextVer := 1, pruneLog := [] }

/-- Expected backend after additionally `PutTenantSchema "t" "article" [7]`. -/
def bSchemaGT : Backend :=
  { objects :=
      [(cfgDemo.globalSchemaKey "article",
         [⟨"v0", false, Blob.bytes [5], "application/json", 1, []⟩]),
       (cfgDemo.tenantSchemaKey "t" "article",
         [⟨"v1", false, Blob.bytes [7], "application/json", 1, []⟩])],
    faults := [], versioning := true, nextVer := 2, pruneLog := [] }

/-!  Association-list and listing lemmas. -/

/-- Updating a key and looking it up yields the new stack. -/
lemma lookupVersions_setVersions_self (l : List (String × List ObjVersion))
    (key : String) (vs : List ObjVersion) :
    lookupVersions (setVersions l key vs) key = vs := by
  induction l with
  | nil => simp [setVersions, lookupVersions]
  | cons kv rest ih =>
      obtain ⟨k, old⟩ := kv
      by_cases h : k = key
      · subst h
        simp [setVersions, lookupVersions]
      · simp [setVersions, lookupVersions, h, ih]

/-- Updating one key leaves the stacks of other keys unchanged. -/
lemma lookupVersions_setVersions_ne (l : List (String × List ObjVersion))
    (key k' : String) (vs : List ObjVersion) (h : k' ≠ key) :
    lookupVersions (setVersions l key vs) k' = lookupVersions l k' := by
  induction l with
  | nil =>
      simp only [setVersions, lookupVersions]
      rw [if_neg (fun hc => h hc.symm)]
  | cons kv rest ih =>
      obtain ⟨k, old⟩ := kv
      by_cases hk : k = key
      · subst hk
        simp only [setVersions, if_pos rfl, lookupVersions]
        rw [if_neg (fun hc => h hc.symm), if_neg (fun hc => h hc.symm)]
      · simp only [setVersions, if_neg hk, lookupVersions]
        by_cases hk' : k = k'
        · simp [hk']
        · simp [hk', ih]

/-- A key with a non-empty stack occurs in the association list. -/
lemma mem_map_fst_of_lookupVersions_ne_nil (l : List (String × List ObjVersion))
    (key : String) (h : lookupVersions l key ≠ []) :
    key ∈ l.map (fun kv => kv.1) := by
  induction l with
  | nil => simp [lookupVersions] at h
  | cons kv rest ih =>
      obtain ⟨k, old⟩ := kv
      by_cases hk : k = key
      · subst hk
        simp
      · simp [lookupVersions, hk] at h
        simp [ih h]

/-- Membership through the sorted insert. -/
lemma mem_insertKeySorted (x k : String) (l : List String) :
    x ∈ insertKeySorted k l ↔ x = k ∨ x ∈ l := by
  induction l with
  | nil => simp [insertKeySorted]
  | cons y ys ih =>
      by_cases h : keyLe k y
      · simp [insertKeySorted, h]
      · simp [insertKeySorted, h, ih]
        tauto

/-- Sorting keys preserves membership. -/
lemma mem_sortKeys (x : String) (l : List String) :
    x ∈ sortKeys l ↔ x ∈ l := by
  induction l with
  | nil => simp [sortKeys]
  | cons y ys ih =>
      simp [sortKeys, List.foldr] at ih ⊢
      rw [mem_insertKeySorted]
      tauto

/-- A key is listed (with no cap) iff it matches the prefix and is
visible. -/
lemma mem_listObjectsV2_none (b : Backend) (pfx k : String) :
    k ∈ b.listObjectsV2 pfx none ↔
      strStartsWith k pfx = true ∧ b.visibleKey k = true := by
  unfold Backend.listObjectsV2
  rw [mem_sortKeys, List.mem_filter]
  constructor
  · rintro ⟨-, hp⟩
    exact ⟨(Bool.and_eq_true _ _ ▸ hp).1, (Bool.and_eq_true _ _ ▸ hp).2⟩
  · rintro ⟨h1, h2⟩
    refine ⟨?_, by simp [h1, h2]⟩
    apply mem_map_fst_of_lookupVersions_ne_nil
    intro hc
    unfold Backend.visibleKey Backend.versionsOf at h2
    rw [hc] at h2
    simp at h2

/-- Visibility unfolded: a non-empty stack headed by a non-marker. -/
lemma visibleKey_iff (b : Backend) (key : String) :
    b.visibleKey key = true ↔
      ∃ v vs, b.versionsOf key = v :: vs ∧ v.isDeleteMarker = false := by
  unfold Backend.visibleKey
  cases h : b.versionsOf key with
  | nil => simp [h]
  | cons v vs =>
      simp only [h]
      constructor
      · intro hm
        exact ⟨v, vs, rfl, by simpa using hm⟩
      · rintro ⟨v', vs', he, hm⟩
        obtain ⟨rfl, rfl⟩ : v' = v ∧ vs' = vs := by
          constructor <;> [exact (List.cons.inj he.symm).1; exact (List.cons.inj he.symm).2]
        simp [hm]

/-- On a fault-free backend, the plain get succeeds exactly on visible
keys and answers the newest version verbatim. -/
lemma getObject_none_ok_iff (b : Backend) (key : String) (item : ContentItem)
    (hf : b.faults = []) :
    b.getObject key none = .ok item ↔
      ∃ v vs, b.versionsOf key = v :: vs ∧ v.isDeleteMarker = false ∧
        item = ⟨key, v.content, v.contentType, v.versionId, v.size, v.metadata⟩ := by
  unfold Backend.getObject
  rw [hf]
  simp only [List.not_mem_nil, if_false]
  cases h : b.versionsOf key with
  | nil => simp
  | cons v vs =>
      by_cases hm : v.isDeleteMarker
      · simp [hm]
      · simp only [hm, if_false, Bool.false_eq_true]
        constructor
        · intro he
          exact ⟨v, vs, rfl, by simpa using hm, (Except.ok.inj he).symm⟩
        · rintro ⟨v', vs', he, hmm, rfl⟩
          obtain rfl : v' = v := (List.cons.inj he.symm).1
          rfl

/-- A successful plain get implies visibility. -/
lemma visibleKey_of_getObject_ok (b : Backend) (key : String) (item : ContentItem)
    (hf : b.faults = []) (h : b.getObject key none = .ok item) :
    b.visibleKey key = true := by
  rw [getObject_none_ok_iff b key item hf] at h
  obtain ⟨v, vs, he, hm, -⟩ := h
  rw [visibleKey_iff]
  exact ⟨v, vs, he, hm⟩

/-- Characterisation of a successful backend put. -/
lemma putObject_ok_elim (b : Backend) (key : String) (c : Blob) (ct : String)
    (sz : Nat) (md : List (String × String)) (b' : Backend) (vid : Option String)
    (h : b.putObject key c ct sz md = .ok (b', vid)) :
    b'.faults = b.faults ∧ b'.pruneLog = b.pruneLog ∧ b'.versioning = b.versioning ∧
    key ∉ b.faults ∧
    ∃ v : ObjVersion, v.isDeleteMarker = false ∧ v.content = c ∧ v.contentType = ct ∧
      b'.versionsOf key =
        (if b.versioning then v :: b.versionsOf key else [v]) := by
  unfold Backend.putObject at h
  by_cases hfk : key ∈ b.faults
  · simp [hfk] at h
  · rw [if_neg hfk] at h
    by_cases hv : b.versioning
    · rw [if_pos hv] at h
      obtain ⟨h1, -⟩ := Prod.mk.inj (Except.ok.inj h)
      subst h1
      refine ⟨rfl, rfl, rfl, hfk, ⟨"v" ++ toString b.nextVer, false, c, ct, sz, md⟩,
        rfl, rfl, rfl, ?_⟩
      rw [if_pos hv]
      exact lookupVersions_setVersions_self b.objects key _
    · rw [if_neg hv] at h
      obtain ⟨h1, -⟩ := Prod.mk.inj (Except.ok.inj h)
      subst h1
      refine ⟨rfl, rfl, rfl, hfk, ⟨"", false, c, ct, sz, md⟩, rfl, rfl, rfl, ?_⟩
      rw [if_neg hv]
      exact lookupVersions_setVersions_self b.objects key _

/-- A put on a non-faulted key succeeds. -/
lemma putObject_ok_of_not_fault (b : Backend) (key : String) (c : Blob) (ct : String)
    (sz : Nat) (md : List (String × String)) (h : key ∉ b.faults) :
    ∃ b' vid, b.putObject key c ct sz md = .ok (b', vid) := by
  unfold Backend.putObject
  rw [if_neg h]
  by_cases hv : b.versioning
  · rw [if_pos hv]
    exact ⟨_, _, rfl⟩
  · rw [if_neg hv]
    exact ⟨_, _, rfl⟩

/-- After a successful put, a plain get of the same key returns the new
payload and content type. -/
lemma putObject_then_getObject (b : Backend) (key : String) (c : Blob) (ct : String)
    (sz : Nat) (md : List (String × String)) (b' : Backend) (vid : Option String)
    (h : b.putObject key c ct sz md = .ok (b', vid)) :
    ∃ it, b'.getObject key none = .ok it ∧ it.key = key ∧ it.content = c ∧
      it.contentType = ct := by
  obtain ⟨hfa, -, -, hfk, v, hm, hc, hct, hvs⟩ := putObject_ok_elim b key c ct sz md b' vid h
  have hfk' : key ∉ b'.faults := by rw [hfa]; exact hfk
  unfold Backend.getObject
  rw [if_neg hfk']
  by_cases hv : b.versioning
  · rw [if_pos hv] at hvs
    rw [hvs]
    exact ⟨⟨key, v.content, v.contentType, v.versionId, v.size, v.metadata⟩,
      by simp [hm], rfl, hc, hct⟩
  · rw [if_neg hv] at hvs
    rw [hvs]
    exact ⟨⟨key, v.content, v.contentType, v.versionId, v.size, v.metadata⟩,
      by simp [hm], rfl, hc, hct⟩

/-!  Comment listing lemmas. -/

/-- On a fault-free backend a comment is listed iff a visible comment
blob for it sits under the comment prefix. -/
lemma listComments_mem (s : S3Storage) (b : Backend)
    (tenant contentType contentID state : String) (hf : b.faults = [])
    (L : List Comment) (hL : s.ListComments b tenant contentType contentID state = .ok L)
    (c : Comment) :
    c ∈ L ↔ ∃ key item, b.getObject key none = Except.ok item ∧
      strStartsWith key (s.commentPrefixOf tenant contentType contentID state) = true ∧
      item.content = Blob.comment c := by
  unfold S3Storage.ListComments at hL
  obtain rfl : L = _ := (Except.ok.inj hL).symm
  rw [List.mem_filterMap]
  constructor
  · rintro ⟨k, hk, hfk⟩
    rw [mem_listObjectsV2_none] at hk
    refine ⟨k, ?_⟩
    revert hfk
    cases hg : b.getObject k none with
    | error e => intro hfk; exact absurd hfk (by simp)
    | ok item =>
        cases hco : item.content with
        | bytes data => intro hfk; exact absurd hfk (by simp [hco])
        | comment c' =>
            intro hfk
            obtain rfl : c' = c := by simpa [hco] using hfk
            exact ⟨item, rfl, hk.1, hco⟩
  · rintro ⟨k, item, hg, hpre, hco⟩
    refine ⟨k, ?_, ?_⟩
    · rw [mem_listObjectsV2_none]
      exact ⟨hpre, visibleKey_of_getObject_ok b k item hf hg⟩
    · simp [hg, hco]

/-- `HasUnresolvedComments` answers true exactly when an unresolved
comment blob is stored under the comment prefix (fault-free backend). -/
lemma hasUnresolved_iff_stored (s : S3Storage) (b : Backend)
    (tenant contentType contentID state : String) (hf : b.faults = []) :
    s.HasUnresolvedComments b tenant contentType contentID state = .ok true ↔
      unresolvedCommentStored b (s.commentPrefixOf tenant contentType contentID state) := by
  unfold S3Storage.HasUnresolvedComments
  cases hL : s.ListComments b tenant contentType contentID state with
  | error e =>
      exact absurd hL (by unfold S3Storage.ListComments; simp)
  | ok L =>
      simp only []
      rw [show (Except.ok (L.any fun c => !c.resolved) :
            Except SErr Bool) = .ok true ↔ (L.any fun c => !c.resolved) = true from
        ⟨fun h => Except.ok.inj h, fun h => by rw [h]⟩]
      rw [List.any_eq_true]
      unfold unresolvedCommentStored
      constructor
      · rintro ⟨c, hc, hres⟩
        rw [listComments_mem s b tenant contentType contentID state hf L hL c] at hc
        obtain ⟨key, item, hg, hpre, hco⟩ := hc
        exact ⟨key, item, c, hg, hpre, hco, by simpa using hres⟩
      · rintro ⟨key, item, c, hg, hpre, hco, hres⟩
        refine ⟨c, ?_, by simp [hres]⟩
        rw [listComments_mem s b tenant contentType contentID state hf L hL c]
        exact ⟨key, item, hg, hpre, hco⟩

/-- C1 (amended): `Transition` fails with `InvalidTransition` exactly when
the source state equals the target state; no other input — in particular
no live source — produces that error. -/
theorem C1_invalid_transition_iff_same_states (s : S3Storage) (b : Backend)
    (tenant contentType idStr ext fromState toState : String) :
    s.Transition b tenant contentType idStr ext fromState toState =
        .error .invalidTransition ↔ fromState = toState := by
  constructor
  · intro h
    by_contra hne
    unfold S3Storage.Transition at h
    rw [if_neg hne] at h
    revert h
    split
    · simp
    · simp
    · split
      · simp
      · split
        · simp
        · simp
  · intro h
    unfold S3Storage.Transition
    rw [if_pos h]

/-- C1 counterexample: a transition request with the valid states
live→draft is not rejected — it succeeds on a backend holding the live
item, although the claim says a live source must fail with
`InvalidTransition`. -/
theorem C1_cex_live_source_transition_succeeds :
    ValidState StateLive = true ∧ ValidState StateDraft = true ∧
    exceptIsOk (cfgDemo.Transition bLive "t" "posts" "a" "html" StateLive StateDraft)
      = true := by
  decide

/-- C7 (amended): `Exists` never surfaces an error: it answers
`(true, nil)` when the HEAD succeeds and `(false, nil)` on every HEAD
failure — not-found and genuine backend faults alike. -/
theorem C7_exists_swallows_head_errors (s : S3Storage) (b : Backend)
    (tenant contentType idStr ext state : String) :
    s.Exists b tenant contentType idStr ext state =
      .ok (exceptIsOk
        (b.headObject (s.contentKey tenant contentType idStr ext (defaultState state)))) := by
  unfold S3Storage.Exists
  cases h : b.headObject (s.contentKey tenant contentType idStr ext (defaultState state)) with
  | error e => simp [h, exceptIsOk]
  | ok u => simp [h, exceptIsOk]

/-- C7 counterexample: the backend answers HEAD on the live key with a
network fault (the key even exists), yet `Exists` reports
`(false, nil)` instead of surfacing the fault. -/
theorem C7_cex_fault_reported_as_absence :
    Backend.headObject bFaultHead liveKeyDemo = .error (.fault "get") ∧
    cfgDemo.Exists bFaultHead "t" "posts" "a" "html" StateLive = .ok false := by
  decide

/-- C2: for a transition out of draft or pending (with distinct states,
on a fault-free backend), the transition fails with `Gated` precisely
when some comment stored under the source state has `resolved = false`;
equally `HasUnresolvedComments` answers true precisely then.  A `Gated`
failure happens before any write, so the content stays in the source
state (an `Except.error` result carries no new backend value). -/
theorem C2_gated_iff_unresolved_comment (s : S3Storage) (b : Backend)
    (tenant contentType idStr ext fromState toState : String)
    (hfrom : fromState = StateDraft ∨ fromState = StatePending)
    (hne : fromState ≠ toState) (hf : b.faults = []) :
    (s.Transition b tenant contentType idStr ext fromState toState =
        .error (.gated fromState) ↔
      unresolvedCommentStored b (s.commentPrefixOf tenant contentType idStr fromState))
    ∧ (s.HasUnresolvedComments b tenant contentType idStr fromState = .ok true ↔
      unresolvedCommentStored b (s.commentPrefixOf tenant contentType idStr fromState)) := by
  have hlive : fromState ≠ StateLive := by
    rcases hfrom with h | h <;> subst h <;> decide
  refine ⟨?_, hasUnresolved_iff_stored s b tenant contentType idStr fromState hf⟩
  rw [← hasUnresolved_iff_stored s b tenant contentType idStr fromState hf]
  unfold S3Storage.Transition
  rw [if_neg hne, if_pos hlive]
  have hH : ∃ u, s.HasUnresolvedComments b tenant contentType idStr fromState = .ok u := by
    unfold S3Storage.HasUnresolvedComments S3Storage.ListComments
    exact ⟨_, rfl⟩
  obtain ⟨u, hH⟩ := hH
  rw [hH]
  cases u with
  | true => simp
  | false =>
      simp only []
      constructor
      · intro h
        revert h
        split
        · simp
        · split
          · simp
          · simp
      · intro h
        exact absurd (Except.ok.inj h) (by simp)

/-- C2 witness: on the concrete backend holding one unresolved draft
comment, the draft→live transition is gated. -/
theorem C2_witness_gated_on_unresolved_draft :
    cfgDemo.Transition bGated "t" "posts" "a" "html" StateDraft StateLive =
      .error (.gated StateDraft) := by
  have h := C2_gated_iff_unresolved_comment cfgDemo bGated "t" "posts" "a" "html"
    StateDraft StateLive (Or.inl rfl) (by decide) rfl
  exact h.1.mpr ⟨cfgDemo.commentKey "t" "posts" "a" StateDraft "c1",
    ⟨cfgDemo.commentKey "t" "posts" "a" StateDraft "c1",
      Blob.comment unresolvedComment, "application/json", "v1", 0, []⟩,
    unresolvedComment, by decide, by decide, rfl, rfl⟩

/-- C3: a `Put` that succeeds is read back by `Get` of the same
addressing tuple and state with a byte-equal payload and the same MIME
type. -/
theorem C3_put_get_roundtrip (s : S3Storage) (b bP : Backend)
    (tenant contentType idStr ext : String) (content : Blob) (mimeType state : String)
    (item : ContentItem)
    (h : s.Put b tenant contentType idStr ext content mimeType state = .ok (bP, item)) :
    ∃ got, s.Get bP tenant contentType idStr ext state = .ok got ∧
      got.content = content ∧ got.contentType = mimeType := by
  unfold S3Storage.Put at h
  simp only [] at h
  cases hp : Backend.putObject b (s.contentKey tenant contentType idStr ext
      (defaultState state)) content mimeType (blobSize content) [] with
  | error e =>
      rw [hp] at h
      exact absurd h (by simp)
  | ok pr =>
      obtain ⟨b', vid⟩ := pr
      rw [hp] at h
      simp only [] at h
      obtain ⟨hb, -⟩ := Prod.mk.inj (Except.ok.inj h)
      subst hb
      obtain ⟨it, hg, hk, hc, hct⟩ := putObject_then_getObject b _ content mimeType
        (blobSize content) [] b' vid hp
      refine ⟨it, ?_, hc, hct⟩
      unfold S3Storage.Get S3Storage.getByKey
      simpa using hg

/-- C3 witness: the round trip at a concrete put into the empty backend. -/
theorem C3_witness_roundtrip :
    ∃ got, cfgDemo.Get bRound "t" "posts" "hello" "json" "" = .ok got ∧
      got.content = Blob.bytes [1, 2] ∧ got.contentType = "application/json" :=
  C3_put_get_roundtrip cfgDemo bEmpty bRound "t" "posts" "hello" "json"
    (Blob.bytes [1, 2]) "application/json" "" itemRound (by decide)

/-!  Pruning bookkeeping lemmas. -/

/-- A pinned version delete touches only the objects map. -/
lemma deleteObjectVersion_fields (b : Backend) (key vid : String) :
    (b.deleteObjectVersion key vid).pruneLog = b.pruneLog ∧
    (b.deleteObjectVersion key vid).faults = b.faults ∧
    (b.deleteObjectVersion key vid).versioning = b.versioning := by
  unfold Backend.deleteObjectVersion
  split
  · exact ⟨rfl, rfl, rfl⟩
  · exact ⟨rfl, rfl, rfl⟩

/-- The prune deletion loop touches only the objects map. -/
lemma foldl_deleteObjectVersion_fields (l : List (String × ObjVersion))
    (b : Backend) (key : String) :
    ((l.foldl (fun bb p => bb.deleteObjectVersion key p.2.versionId) b)).pruneLog
        = b.pruneLog ∧
    ((l.foldl (fun bb p => bb.deleteObjectVersion key p.2.versionId) b)).faults
        = b.faults ∧
    ((l.foldl (fun bb p => bb.deleteObjectVersion key p.2.versionId) b)).versioning
        = b.versioning := by
  induction l generalizing b with
  | nil => exact ⟨rfl, rfl, rfl⟩
  | cons p rest ih =>
      simp only [List.foldl_cons]
      obtain ⟨h1, h2, h3⟩ := ih (b.deleteObjectVersion key p.2.versionId)
      obtain ⟨g1, g2, g3⟩ := deleteObjectVersion_fields b key p.2.versionId
      exact ⟨h1.trans g1, h2.trans g2, h3.trans g3⟩

/-- Pruning touches only the objects map. -/
lemma pruneVersions_fields (s : S3Storage) (b : Backend) (key : String) :
    (s.pruneVersions b key).pruneLog = b.pruneLog ∧
    (s.pruneVersions b key).faults = b.faults ∧
    (s.pruneVersions b key).versioning = b.versioning := by
  unfold S3Storage.pruneVersions
  dsimp only
  split
  · exact foldl_deleteObjectVersion_fields _ b key
  · exact ⟨rfl, rfl, rfl⟩

/-- C4 (amended): with a positive `maxVersions`, a live-state write via
`PutStream` launches version pruning of the just-written key, but a
live-state write via the buffered `Put` never launches pruning — only
`PutStream` writes are followed by pruning. -/
theorem C4_only_putstream_launches_pruning (s : S3Storage) (b bP bS : Backend)
    (tenant contentType idStr ext : String) (content : Blob) (len : Nat)
    (mime : String) (md : List (String × String)) (itP itS : ContentItem)
    (hmv : s.maxVersions > 0)
    (hP : s.Put b tenant contentType idStr ext content mime StateLive = .ok (bP, itP))
    (hS : s.PutStream b tenant contentType idStr ext content len mime StateLive md
            = .ok (bS, itS)) :
    bP.pruneLog = b.pruneLog ∧
    bS.pruneLog = s.contentKey tenant contentType idStr ext StateLive :: b.pruneLog := by
  constructor
  · unfold S3Storage.Put at hP
    simp only [] at hP
    cases hp : Backend.putObject b (s.contentKey tenant contentType idStr ext
        (defaultState StateLive)) content mime (blobSize content) [] with
    | error e => rw [hp] at hP; exact absurd hP (by simp)
    | ok pr =>
        obtain ⟨b', vid⟩ := pr
        rw [hp] at hP
        simp only [] at hP
        obtain ⟨hb, -⟩ := Prod.mk.inj (Except.ok.inj hP)
        obtain ⟨-, hlog, -⟩ := putObject_ok_elim b _ content mime (blobSize content) []
          b' vid hp
        rw [← hb]
        simpa [defaultState] using hlog
  · unfold S3Storage.PutStream at hS
    simp only [] at hS
    cases hp : Backend.putObject b (s.contentKey tenant contentType idStr ext
        (defaultState StateLive)) content mime len md with
    | error e => rw [hp] at hS; exact absurd hS (by simp)
    | ok pr =>
        obtain ⟨b', vid⟩ := pr
        rw [hp] at hS
        simp only [] at hS
        rw [if_pos ⟨by simp [defaultState], hmv⟩] at hS
        obtain ⟨hb, -⟩ := Prod.mk.inj (Except.ok.inj hS)
        obtain ⟨-, hlog, -⟩ := putObject_ok_elim b _ content mime len md b' vid hp
        obtain ⟨p1, -, -⟩ := pruneVersions_fields s
          { b' with pruneLog := (s.contentKey tenant contentType idStr ext
              (defaultState StateLive)) :: b'.pruneLog }
          (s.contentKey tenant contentType idStr ext (defaultState StateLive))
        rw [← hb, p1]
        simp only []
        rw [hlog]
        simp [defaultState]

/-- C4 counterexample: a live-state buffered `Put` on a versioning
backend with `maxVersions = 3 > 0` launches no pruning at all (empty
prune log), refuting "pruning is invoked after every live-state write —
both buffered Put and PutStream". -/
theorem C4_cex_buffered_put_never_prunes :
    cfgDemo.maxVersions = 3 ∧
    (cfgDemo.Put bLive "t" "posts" "a" "html" (Blob.bytes [1]) "text/html" StateLive).map
        (fun r => r.1.pruneLog) = .ok [] := by
  decide

/-- C4 witness: instantiating the amended statement at the concrete item
shows the stream write logging one prune launch and the buffered write
logging none. -/
theorem C4_witness_prune_launches :
    bPutNoPrune.pruneLog = bLive.pruneLog ∧
    bStreamPruned.pruneLog = liveKeyDemo :: bLive.pruneLog :=
  C4_only_putstream_launches_pruning cfgDemo bLive bPutNoPrune bStreamPruned
    "t" "posts" "a" "html" (Blob.bytes [1]) 1 "text/html" [] itemPutDemo itemStreamDemo
    (by decide) (by decide) (by decide)

/-- With a negative `maxVersions`, a sequence of live `PutStream` writes
never launches pruning and accretes one retained version per write. -/
lemma liveWrites_unlimited (s : S3Storage) (hmv : s.maxVersions < 0) (b : Backend)
    (tenant contentType idStr ext : String) (content : Blob) (len : Nat) (mime : String)
    (hver : b.versioning = true)
    (hkey : s.contentKey tenant contentType idStr ext StateLive ∉ b.faults) (n : Nat) :
    (liveWrites s b tenant contentType idStr ext content len mime n).faults = b.faults ∧
    (liveWrites s b tenant contentType idStr ext content len mime n).versioning = true ∧
    (liveWrites s b tenant contentType idStr ext content len mime n).pruneLog
        = b.pruneLog ∧
    countVersionsAt (liveWrites s b tenant contentType idStr ext content len mime n)
        (s.contentKey tenant contentType idStr ext StateLive) =
      countVersionsAt b (s.contentKey tenant contentType idStr ext StateLive) + n := by
  induction n with
  | zero => exact ⟨rfl, hver, rfl, rfl⟩
  | succ n ih =>
      obtain ⟨hf, hv, hl, hc⟩ := ih
      have hkey' : s.contentKey tenant contentType idStr ext StateLive ∉
          (liveWrites s b tenant contentType idStr ext content len mime n).faults := by
        rw [hf]; exact hkey
      obtain ⟨b', vid, hput⟩ := putObject_ok_of_not_fault
        (liveWrites s b tenant contentType idStr ext content len mime n)
        (s.contentKey tenant contentType idStr ext StateLive) content mime len [] hkey'
      have hPS : s.PutStream (liveWrites s b tenant contentType idStr ext content len mime n)
          tenant contentType idStr ext content len mime StateLive []
          = .ok (b', { key := s.contentKey tenant contentType idStr ext StateLive,
                       content := content, contentType := mime,
                       versionID := vid.getD "", size := len, metadata := [] }) := by
        unfold S3Storage.PutStream
        dsimp only
        rw [show defaultState StateLive = StateLive by simp [defaultState, StateLive]]
        rw [hput]
        dsimp only
        rw [if_neg (fun hc' => absurd hc'.2 (by omega))]
      have hstep : liveWrites s b tenant contentType idStr ext content len mime (n + 1)
          = b' := by
        unfold liveWrites
        dsimp only
        rw [hPS]
      obtain ⟨gf, gl, gv, -, v, -, -, -, gvs⟩ := putObject_ok_elim
        (liveWrites s b tenant contentType idStr ext content len mime n)
        (s.contentKey tenant contentType idStr ext StateLive) content mime len []
        b' vid hput
      rw [hv] at gvs
      simp only [if_true] at gvs
      refine ⟨?_, ?_, ?_, ?_⟩
      · rw [hstep, gf, hf]
      · rw [hstep, gv, hv]
      · rw [hstep, gl, hl]
      · rw [hstep]
        unfold countVersionsAt at hc ⊢
        rw [gvs]
        simp only [List.length_cons]
        omega

/-- C5 (amended): a *negative* configured `maxVersions` means unlimited
retention — no live write launches pruning and every version is kept —
while a configured `maxVersions` of exactly zero is replaced by the
default 10 at construction (so pruning does delete). -/
theorem C5_negative_means_unlimited (root : String) (mv : Int) (b : Backend)
    (tenant contentType idStr ext : String) (content : Blob) (len : Nat) (mime : String)
    (n : Nat) (hmv : mv < 0) (hver : b.versioning = true)
    (hkey : (NewS3Storage root mv).contentKey tenant contentType idStr ext StateLive
              ∉ b.faults) :
    (NewS3Storage root 0).maxVersions = 10 ∧
    (liveWrites (NewS3Storage root mv) b tenant contentType idStr ext content len mime
        n).pruneLog = b.pruneLog ∧
    countVersionsAt
        (liveWrites (NewS3Storage root mv) b tenant contentType idStr ext content len
          mime n)
        ((NewS3Storage root mv).contentKey tenant contentType idStr ext StateLive) =
      countVersionsAt b
        ((NewS3Storage root mv).contentKey tenant contentType idStr ext StateLive)
        + n := by
  have hs : (NewS3Storage root mv).maxVersions < 0 := by
    unfold NewS3Storage
    dsimp only
    rw [if_neg (by omega : ¬ mv = 0)]
    exact hmv
  obtain ⟨-, -, hl, hc⟩ := liveWrites_unlimited (NewS3Storage root mv) hs b
    tenant contentType idStr ext content len mime hver hkey n
  exact ⟨by unfold NewS3Storage; simp, hl, hc⟩

set_option maxRecDepth 100000 in
/-- C5 counterexample: with the configured `maxVersions = 0` — claimed to
mean unlimited — eleven live stream writes leave only ten retained
versions: the constructor silently replaced 0 by the default 10 and
pruning deleted the oldest version. -/
theorem C5_cex_zero_config_prunes :
    cfgZero = NewS3Storage "development" 0 ∧
    countVersionsAt (liveWrites cfgZero bEmpty "t" "posts" "a" "html" (Blob.bytes [5]) 1
        "text/html" 11) liveKeyDemo = 10 := by
  exact ⟨rfl, by decide⟩

/-- C5 witness: the amended statement at a concrete negative
configuration and three writes. -/
theorem C5_witness_negative_unlimited :
    (NewS3Storage "development" 0).maxVersions = 10 ∧
    (liveWrites (NewS3Storage "development" (-1)) bEmpty "t" "posts" "a" "html"
        (Blob.bytes [5]) 1 "text/html" 3).pruneLog = bEmpty.pruneLog ∧
    countVersionsAt (liveWrites (NewS3Storage "development" (-1)) bEmpty "t" "posts" "a"
        "html" (Blob.bytes [5]) 1 "text/html" 3)
        ((NewS3Storage "development" (-1)).contentKey "t" "posts" "a" "html" StateLive) =
      countVersionsAt bEmpty
        ((NewS3Storage "development" (-1)).contentKey "t" "posts" "a" "html" StateLive)
        + 3 :=
  C5_negative_means_unlimited "development" (-1) bEmpty "t" "posts" "a" "html"
    (Blob.bytes [5]) 1 "text/html" 3 (by decide) rfl (by decide)

/-- C6 (amended): the live `List` returns exactly the visible keys under
the live prefix whose key does not contain `/_draft/` or `/_pending/` —
draft copies, pending copies and comments (which live under those
directories) are excluded, but that is the whole filter: `_history/`
keys are not excluded and do appear. -/
theorem C6_live_list_filter (s : S3Storage) (b : Backend) (tenant contentType : String) :
    ∃ items, s.List b tenant contentType StateLive = .ok items ∧
      ∀ k, (∃ item, item ∈ items ∧ ContentItem.key item = k) ↔
        (k ∈ b.listObjectsV2 (s.contentPrefixOf tenant contentType StateLive) none ∧
         strContains k "/_draft/" = false ∧ strContains k "/_pending/" = false) := by
  unfold S3Storage.List
  dsimp only
  rw [show defaultState StateLive = StateLive by simp [defaultState, StateLive]]
  refine ⟨_, rfl, fun k => ?_⟩
  constructor
  · rintro ⟨item, hmem, hkey⟩
    rw [List.mem_filterMap] at hmem
    obtain ⟨a, ha, hfa⟩ := hmem
    by_cases hcond : StateLive = StateLive ∧
        (strContains a "/_draft/" = true ∨ strContains a "/_pending/" = true)
    · rw [if_pos hcond] at hfa
      exact absurd hfa (by simp)
    · rw [if_neg hcond] at hfa
      have hik : item.key = a := by
        have := Option.some.inj hfa
        rw [← this]
      obtain rfl : a = k := by rw [← hik, hkey]
      have hor : ¬(strContains a "/_draft/" = true ∨ strContains a "/_pending/" = true) :=
        fun hx => hcond ⟨rfl, hx⟩
      rw [not_or] at hor
      exact ⟨ha, by simpa using hor.1, by simpa using hor.2⟩
  · rintro ⟨hk, hd, hp⟩
    have hcond : ¬(StateLive = StateLive ∧
        (strContains k "/_draft/" = true ∨ strContains k "/_pending/" = true)) := by
      rintro ⟨-, hor⟩
      rcases hor with h | h
      · rw [hd] at h; exact absurd h (by simp)
      · rw [hp] at h; exact absurd h (by simp)
    refine ⟨{ key := k, content := Blob.bytes [], contentType := "", versionID := "",
              size := (match b.versionsOf k with | v :: _ => v.size | [] => 0),
              metadata := [] }, ?_, rfl⟩
    rw [List.mem_filterMap]
    exact ⟨k, hk, by rw [if_neg hcond]⟩

/-- C6 counterexample: on a backend holding a live item and a history
record of the same item, the live listing answers the `_history/` key as
well — history records are not excluded, contradicting the claim. -/
theorem C6_cex_history_leaks_into_live_list :
    (cfgDemo.List bHist "t" "posts" StateLive).map (fun items => items.map
        (fun i => i.key)) =
      .ok ["development/tenants/t/content/posts/_history/a/v0.json",
           "development/tenants/t/content/posts/a.html"] := by
  decide

/-!  Extension-resolver lemmas. -/

/-- The last-index scan answers its accumulator when the character never
occurs. -/
lemma lastIndexAux_of_not_mem (c : Char) (cs : List Char) (i : Nat) (acc : Option Nat)
    (h : c ∉ cs) : lastIndexAux c cs i acc = acc := by
  induction cs generalizing i acc with
  | nil => rfl
  | cons x xs ih =>
      have hx : ¬x = c := fun hc => h (by rw [hc]; exact List.mem_cons_self _ _)
      unfold lastIndexAux
      rw [if_neg hx]
      exact ih (i + 1) acc (fun hc => h (List.mem_cons_of_mem x hc))

/-- A dot-free id is not split. -/
lemma hasExtSplit_eq_none (idStr : String) (h : '.' ∉ idStr.toList) :
    hasExtSplit idStr = none := by
  unfold hasExtSplit lastIndexOf
  dsimp only
  rw [lastIndexAux_of_not_mem '.' idStr.toList 0 none h]

/-- With a non-empty running best, the selection loop answers the first
non-`.json` key, else the running best. -/
lemma chooseBestKey_aux (l : List String) (best : String) (hb : best ≠ "") :
    chooseBestKey l best =
      match l.find? (fun kk => !strEndsWith kk ".json") with
      | some kk => kk
      | none => best := by
  induction l with
  | nil => rfl
  | cons x xs ih =>
      unfold chooseBestKey
      dsimp only
      rw [if_neg hb]
      by_cases he : strEndsWith x ".json"
      · rw [if_neg (by simp [he])]
        rw [List.find?_cons_of_neg _ (by simp [he])]
        exact ih
      · rw [if_pos (by simp [he])]
        rw [List.find?_cons_of_pos _ (by simp [he])]

/-- Started empty on a non-empty first key, the selection loop answers
the first non-`.json` key, else the first key. -/
lemma chooseBestKey_top (k : String) (l : List String) (hk : k ≠ "") :
    chooseBestKey (k :: l) "" =
      match (k :: l).find? (fun kk => !strEndsWith kk ".json") with
      | some kk => kk
      | none => k := by
  unfold chooseBestKey
  dsimp only
  rw [if_pos rfl]
  by_cases he : strEndsWith k ".json"
  · rw [if_neg (by simp [he])]
    rw [List.find?_cons_of_neg _ (by simp [he])]
    exact chooseBestKey_aux l k hk
  · rw [if_pos (by simp [he])]
    rw [List.find?_cons_of_pos _ (by simp [he])]

/-- Only the empty prefix admits the empty string. -/
lemma strStartsWith_empty (pfx : String) (h : strStartsWith "" pfx = true) :
    pfx.toList = [] := by
  unfold strStartsWith at h
  cases hp : pfx.toList with
  | nil => rfl
  | cons c cs =>
      rw [hp] at h
      simp [List.isPrefixOf] at h

/-- Keys listed under a non-empty prefix are non-empty. -/
lemma listed_key_not_empty (b : Backend) (pfx k : String) (cap : Option Nat)
    (hp : pfx.toList ≠ []) (hk : k ∈ b.listObjectsV2 pfx cap) : k ≠ "" := by
  intro hke
  subst hke
  unfold Backend.listObjectsV2 at hk
  dsimp only at hk
  have hk' : "" ∈ sortKeys ((b.objects.map (fun kv => kv.1)).filter
      (fun x => strStartsWith x pfx && b.visibleKey x)) := by
    cases cap with
    | none => exact hk
    | some n => exact List.mem_of_mem_take hk
  rw [mem_sortKeys, List.mem_filter] at hk'
  have h2 := (Bool.and_eq_true _ _).mp hk'.2
  exact hp (strStartsWith_empty pfx h2.1)

/-- C8: for a bare id (no dot), once the resolver falls through to the
prefix listing (no hint, or the hinted key failed), it fetches the first
listed key that does not end in `.json`, falls back to the first listed
key when all end in `.json`, and fails with NotFound when the listing is
empty. -/
theorem C8_fallthrough_prefers_non_json (s : S3Storage) (b : Backend)
    (tenant contentType idStr extHint state : String)
    (hdot : '.' ∉ idStr.toList)
    (hfall : extHint = "" ∨
      exceptIsOk (s.getStreamByKey b
        (s.contentKey tenant contentType idStr extHint (defaultState state)) "")
        = false) :
    s.FindContentStream b tenant contentType idStr extHint state =
      match b.listObjectsV2
          (s.contentPrefixOf tenant contentType (defaultState state) ++ idStr ++ ".")
          (some 10) with
      | [] => .error (.contentNotFound idStr)
      | k :: rest =>
          s.getStreamByKey b
            (match (k :: rest).find? (fun kk => !strEndsWith kk ".json") with
             | some kk => kk
             | none => k) "" := by
  have hp : (s.contentPrefixOf tenant contentType (defaultState state) ++ idStr
      ++ ".").toList ≠ [] := by
    rw [show (s.contentPrefixOf tenant contentType (defaultState state) ++ idStr
        ++ ".").toList = (s.contentPrefixOf tenant contentType (defaultState state)
        ++ idStr).toList ++ ".".toList from String.data_append _ _]
    simp
  have hstep : (match b.listObjectsV2
        (s.contentPrefixOf tenant contentType (defaultState state) ++ idStr ++ ".")
        (some 10) with
      | [] => (Except.error (SErr.contentNotFound idStr) : Except SErr ContentStream)
      | k :: rest => s.getStreamByKey b (chooseBestKey (k :: rest) "") "") =
      match b.listObjectsV2
          (s.contentPrefixOf tenant contentType (defaultState state) ++ idStr ++ ".")
          (some 10) with
      | [] => .error (.contentNotFound idStr)
      | k :: rest =>
          s.getStreamByKey b
            (match (k :: rest).find? (fun kk => !strEndsWith kk ".json") with
             | some kk => kk
             | none => k) "" := by
    cases hK : b.listObjectsV2
        (s.contentPrefixOf tenant contentType (defaultState state) ++ idStr ++ ".")
        (some 10) with
    | nil => rfl
    | cons k rest =>
        have hk : k ≠ "" := by
          refine listed_key_not_empty b _ k (some 10) hp ?_
          rw [hK]
          exact List.mem_cons_self _ _
        dsimp only
        rw [chooseBestKey_top k rest hk]
  unfold S3Storage.FindContentStream
  dsimp only
  rw [hasExtSplit_eq_none idStr hdot]
  dsimp only
  by_cases hE : extHint = ""
  · rw [if_neg (by simp [hE])]
    exact hstep
  · rw [if_pos hE]
    have hfail := hfall.resolve_left hE
    cases hg : s.getStreamByKey b
        (s.contentKey tenant contentType idStr extHint (defaultState state)) "" with
    | ok stream =>
        rw [hg] at hfail
        exact absurd hfail (by simp [exceptIsOk])
    | error e =>
        dsimp only
        exact hstep

/-- C8 witness: with `logo.json` and `logo.png` both live, the resolver
with a bare id and no hint answers the `.png` key. -/
theorem C8_witness_logo_png_wins :
    cfgDemo.FindContentStream bLogo "t" "images" "logo" "" StateLive =
      cfgDemo.getStreamByKey bLogo
        (cfgDemo.contentKey "t" "images" "logo" "png" StateLive) "" := by
  have h := C8_fallthrough_prefers_non_json cfgDemo bLogo "t" "images" "logo" ""
    StateLive (by decide) (Or.inl rfl)
  rw [h]
  decide

/-- C9: `GetSchema` resolves the tenant layer first.  After writing a
global schema X and a tenant schema Y of the same name, the lookup
answers Y with `isGlobal = false` — the tenant schema entirely shadows
the global one.  When only the global read succeeds the lookup answers
it with `isGlobal = true`, and when both reads fail the lookup fails. -/
theorem C9_tenant_schema_shadows_global (s : S3Storage) (b b1 b2 : Backend)
    (tenant name : String) (x y : Blob)
    (h1 : s.PutGlobalSchema b name x = .ok b1)
    (h2 : s.PutTenantSchema b1 tenant name y = .ok b2) :
    s.GetSchema b2 tenant name =
        .ok { name := name, content := y, isGlobal := false } ∧
    (∀ (b' : Backend) (e : SErr) (gitem : ContentItem),
      s.getByKey b' (s.tenantSchemaKey tenant name) "" = .error e →
      s.getByKey b' (s.globalSchemaKey name) "" = .ok gitem →
      s.GetSchema b' tenant name =
        .ok { name := name, content := gitem.content, isGlobal := true }) ∧
    (∀ (b' : Backend) (e e' : SErr),
      s.getByKey b' (s.tenantSchemaKey tenant name) "" = .error e →
      s.getByKey b' (s.globalSchemaKey name) "" = .error e' →
      s.GetSchema b' tenant name = .error (.schemaNotFound name)) := by
  refine ⟨?_, ?_, ?_⟩
  · unfold S3Storage.PutTenantSchema at h2
    cases hput : Backend.putObject b1 (s.tenantSchemaKey tenant name) y
        "application/json" (blobSize y) [] with
    | error e =>
        rw [hput] at h2
        exact absurd h2 (by simp)
    | ok pr =>
        obtain ⟨b', vid⟩ := pr
        rw [hput] at h2
        simp only [] at h2
        obtain hb := Except.ok.inj h2
        obtain ⟨it, hgo, -, hco, -⟩ := putObject_then_getObject b1
          (s.tenantSchemaKey tenant name) y "application/json" (blobSize y) [] b' vid hput
        unfold S3Storage.GetSchema S3Storage.getByKey
        rw [show (if ("" : String) = "" then (none : Option String) else some "")
          = none by simp]
        rw [hb] at hgo
        rw [hgo]
        simp only []
        rw [hco]
  · intro b' e gitem hT hG
    unfold S3Storage.GetSchema
    rw [hT, hG]
  · intro b' e e' hT hG
    unfold S3Storage.GetSchema
    rw [hT, hG]

/-- C9 witness: the shadow property at a concrete global-then-tenant
write of the `article` schema. -/
theorem C9_witness_shadow :
    cfgDemo.GetSchema bSchemaGT "t" "article" =
      .ok { name := "article", content := Blob.bytes [7], isGlobal := false } :=
  (C9_tenant_schema_shadows_global cfgDemo bEmpty bSchemaG bSchemaGT "t" "article"
    (Blob.bytes [5]) (Blob.bytes [7]) (by decide) (by decide)).1

/-- C10: the tenant-layer read of `GetSchema` falls back to the global
layer on *any* error — here a backend fault, not absence — and when the
global read also fails (for whatever reason) the caller only sees the
uniform "schema not found" error. -/
theorem C10_fallback_on_any_tenant_error (s : S3Storage) (b : Backend)
    (tenant name : String)
    (hfault : s.tenantSchemaKey tenant name ∈ b.faults) :
    (∀ gitem : ContentItem, s.getByKey b (s.globalSchemaKey name) "" = .ok gitem →
      s.GetSchema b tenant name =
        .ok { name := name, content := gitem.content, isGlobal := true }) ∧
    (∀ e : SErr, s.getByKey b (s.globalSchemaKey name) "" = .error e →
      s.GetSchema b tenant name = .error (.schemaNotFound name)) := by
  have hT : s.getByKey b (s.tenantSchemaKey tenant name) "" = .error (.fault "get") := by
    unfold S3Storage.getByKey Backend.getObject
    rw [if_pos hfault]
  constructor
  · intro gitem hG
    unfold S3Storage.GetSchema
    rw [hT, hG]
  · intro e hG
    unfold S3Storage.GetSchema
    rw [hT, hG]

/-- C10 witness: with the tenant schema key faulted and the global
schema present, the global schema is served as if the tenant layer were
simply absent. -/
theorem C10_witness_fault_falls_back :
    cfgDemo.GetSchema bSchemaFault "t" "article" =
      .ok { name := "article", content := Blob.bytes [4, 2], isGlobal := true } :=
  (C10_fallback_on_any_tenant_error cfgDemo bSchemaFault "t" "article" (by decide)).1
    ⟨cfgDemo.globalSchemaKey "article", Blob.bytes [4, 2], "application/json",
      "v0", 2, []⟩ (by decide)
